import Mathlib

/-!
Verification of the wordposty repository's core logic against its
natural-language specification.

The development shallowly embeds the relevant TypeScript sources:

* `src/lib/rate-limiter.ts` — the sliding-window rate limiter (`checkLimit`,
  `getResetTime`, `cleanup`, `withRateLimit`);
* `src/lib/claude.ts` and the Perplexity service — the response parsers with
  fallback defaults (`parseBlogResponse`, `parseAnalysisResponse`);
* `src/app/api/analyze/route.ts` — input validation ordering in the POST route;
* the workflow wizard driven by `src/components/ai-editor.tsx` together with
  the WordPress store's `canPublish`.

JavaScript `Map`s are embedded as association lists with unique keys
(`lookupA` / `setA` mirror `Map.get` / `Map.set`), `Date.now()` timestamps and
millisecond windows as `Int`, and dynamic JSON values as an inductive `Json`
type with JavaScript truthiness.
-/

namespace WordPosty

/-- `Map.get`: first binding for `k` in an association list (a JS `Map` never
holds duplicate keys, so "first" is exact). -/
def lookupA {α : Type} : List (String × α) → String → Option α
  | [], _ => none
  | (k', v) :: rest, k => if k' = k then some v else lookupA rest k

/-- `Map.set`: replace the binding for `k` in place, or append it. -/
def setA {α : Type} : List (String × α) → String → α → List (String × α)
  | [], k, v => [(k, v)]
  | (k', v') :: rest, k, v =>
    if k' = k then (k, v) :: rest else (k', v') :: setA rest k v

theorem lookupA_setA_self {α : Type} (m : List (String × α)) (k : String) (v : α) :
    lookupA (setA m k v) k = some v := by
  induction m with
  | nil => simp [setA, lookupA]
  | cons hd tl ih =>
    obtain ⟨k', v'⟩ := hd
    by_cases h : k' = k
    · simp [setA, h, lookupA]
    · simp [setA, h, lookupA, ih]

theorem lookupA_setA_ne {α : Type} (m : List (String × α)) (k k' : String) (v : α)
    (h : k' ≠ k) : lookupA (setA m k v) k' = lookupA m k' := by
  have h' : ¬ k = k' := fun hh => h hh.symm
  induction m with
  | nil => simp [setA, lookupA, h']
  | cons hd tl ih =>
    obtain ⟨k₀, v₀⟩ := hd
    by_cases h₀ : k₀ = k
    · subst h₀
      simp [setA, lookupA, h']
    · simp only [setA, h₀, if_false]
      by_cases h₁ : k₀ = k'
      · simp [lookupA, h₁]
      · simp [lookupA, h₁, ih]

theorem lookupA_eq_none_of_not_mem {α : Type} (m : List (String × α)) (k : String)
    (h : k ∉ m.map Prod.fst) : lookupA m k = none := by
  induction m with
  | nil => rfl
  | cons hd tl ih =>
    obtain ⟨k', v'⟩ := hd
    simp only [List.map_cons, List.mem_cons] at h
    push_neg at h
    have h1 : ¬ k' = k := fun hh => h.1 hh.symm
    simp [lookupA, h1, ih h.2]

/-! ## The rate limiter (`src/lib/rate-limiter.ts`) -/

/-- `interface RateLimitConfig` (the `service` field tags the config with its
service name, as in the source). -/
structure RateLimitConfig where
  maxRequests : Nat
  windowMs : Int
  service : String
deriving DecidableEq

/-- `interface RequestRecord`. -/
structure RequestRecord where
  timestamp : Int
  count : Nat
deriving DecidableEq

/-- The `RateLimiter` class state: `requests` and `configs` maps. -/
structure RateLimiter where
  requests : List (String × List RequestRecord)
  configs : List (String × RateLimitConfig)
deriving DecidableEq

/-- The constructor's default configuration table. -/
def defaultConfigs : List (String × RateLimitConfig) :=
  [("perplexity", ⟨20, 60 * 1000, "perplexity"⟩),
   ("claude", ⟨50, 60 * 1000, "claude"⟩),
   ("default", ⟨100, 60 * 1000, "default"⟩)]

/-- `new RateLimiter()`: empty request table, default configs. -/
def initialRateLimiter : RateLimiter :=
  { requests := [], configs := defaultConfigs }

/-- `this.configs.get(service) || this.configs.get('default')!`.  In every
state the constructor's `'default'` entry is present, so the final `getD`
fallback is never exercised on reachable states. -/
def lookupConfig (configs : List (String × RateLimitConfig)) (service : String) :
    RateLimitConfig :=
  match lookupA configs service with
  | some c => c
  | none => (lookupA configs "default").getD ⟨100, 60 * 1000, "default"⟩

/-- The composite map key `` `${service}:${identifier}` ``. -/
def mkKey (service identifier : String) : String :=
  service ++ ":" ++ identifier

/-- `RateLimiter.checkLimit`, with the current clock `now` passed explicitly.
Returns the boolean result together with the updated limiter state. -/
def checkLimit (rl : RateLimiter) (now : Int) (service identifier : String) :
    Bool × RateLimiter :=
  let config := lookupConfig rl.configs service
  let key := mkKey service identifier
  let requests := (lookupA rl.requests key).getD []
  let requests := requests.filter fun req => now - req.timestamp < config.windowMs
  if requests.length ≥ config.maxRequests then
    (false, { rl with requests := setA rl.requests key requests })
  else
    (true, { rl with requests := setA rl.requests key (requests ++ [⟨now, 1⟩]) })

/-- The stored request list for a `(service, identifier)` pair
(`this.requests.get(key) || []`). -/
def windowOf (rl : RateLimiter) (service identifier : String) : List RequestRecord :=
  (lookupA rl.requests (mkKey service identifier)).getD []

/-- The in-window entries of a stored list at clock `T`. -/
def prunedAt (w : List RequestRecord) (T windowMs : Int) : List RequestRecord :=
  w.filter fun req => T - req.timestamp < windowMs

/-- How many recorded timestamps for `(service, identifier)` are younger than
the service's `windowMs` at clock `T`. -/
def countInWindow (rl : RateLimiter) (T : Int) (service identifier : String) : Nat :=
  (prunedAt (windowOf rl service identifier) T (lookupConfig rl.configs service).windowMs).length

/-- The window for `(service, identifier)` pruned to `now`'s horizon, as
computed at the head of `checkLimit`. -/
def prunedWindow (rl : RateLimiter) (now : Int) (service identifier : String) :
    List RequestRecord :=
  prunedAt (windowOf rl service identifier) now (lookupConfig rl.configs service).windowMs

theorem checkLimit_eq (rl : RateLimiter) (now : Int) (service identifier : String) :
    checkLimit rl now service identifier =
      if (prunedWindow rl now service identifier).length ≥
          (lookupConfig rl.configs service).maxRequests then
        (false, { rl with requests := setA rl.requests (mkKey service identifier) (prunedWindow rl now service identifier) })
      else
        (true, { rl with requests := setA rl.requests (mkKey service identifier) (prunedWindow rl now service identifier ++ [⟨now, 1⟩]) }) := rfl

/-- C2: `checkLimit(service, identifier)` first discards exactly the stored
timestamps `t` with `now - t ≥ windowMs`, then refuses (returns `false`,
storing only the pruned list) when the pruned list already has at least
`maxRequests` entries, and otherwise appends a single record carrying the
current timestamp and returns `true`.  The configuration table and every other
key's window are untouched. -/
theorem checkLimit_prunes_then_decides (rl : RateLimiter) (now : Int)
    (service identifier : String) :
    (∀ r, r ∈ prunedWindow rl now service identifier ↔
        r ∈ windowOf rl service identifier
          ∧ ¬ now - r.timestamp ≥ (lookupConfig rl.configs service).windowMs)
    ∧ (checkLimit rl now service identifier).1 =
        decide ((prunedWindow rl now service identifier).length <
          (lookupConfig rl.configs service).maxRequests)
    ∧ windowOf (checkLimit rl now service identifier).2 service identifier =
        (if (prunedWindow rl now service identifier).length <
            (lookupConfig rl.configs service).maxRequests then
          prunedWindow rl now service identifier ++ [⟨now, 1⟩]
        else prunedWindow rl now service identifier)
    ∧ (checkLimit rl now service identifier).2.configs = rl.configs
    ∧ ∀ k, k ≠ mkKey service identifier →
        lookupA (checkLimit rl now service identifier).2.requests k = lookupA rl.requests k := by
  rw [checkLimit_eq]
  refine ⟨?_, ?_, ?_, ?_, ?_⟩
  · intro r
    simp [prunedWindow, prunedAt, List.mem_filter, not_le]
  · by_cases h : (prunedWindow rl now service identifier).length ≥
        (lookupConfig rl.configs service).maxRequests
    · rw [if_pos h]
      simp [Nat.not_lt.mpr h]
    · rw [if_neg h]
      simp [Nat.lt_of_not_le h]
  · by_cases h : (prunedWindow rl now service identifier).length ≥
        (lookupConfig rl.configs service).maxRequests
    · rw [if_pos h, if_neg (Nat.not_lt.mpr h)]
      simp [windowOf, lookupA_setA_self]
    · rw [if_neg h, if_pos (Nat.lt_of_not_le h)]
      simp [windowOf, lookupA_setA_self]
  · by_cases h : (prunedWindow rl now service identifier).length ≥
        (lookupConfig rl.configs service).maxRequests
    · rw [if_pos h]
    · rw [if_neg h]
  · intro k hk
    by_cases h : (prunedWindow rl now service identifier).length ≥
        (lookupConfig rl.configs service).maxRequests
    · rw [if_pos h]
      exact lookupA_setA_ne _ _ _ _ hk
    · rw [if_neg h]
      exact lookupA_setA_ne _ _ _ _ hk

/-- `RateLimiter.getResetTime`: `null` when the stored list is empty,
otherwise `requests[0].timestamp + config.windowMs`.  The function takes no
clock argument and returns no state: it does not consult the current time and
does not modify the request table. -/
def getResetTime (rl : RateLimiter) (service identifier : String) : Option Int :=
  let config := lookupConfig rl.configs service
  let requests := (lookupA rl.requests (mkKey service identifier)).getD []
  match requests with
  | [] => none
  | oldest :: _ => some (oldest.timestamp + config.windowMs)

/-- `key.split(':')[0]`: the part of the key before the first `':'`. -/
def takeUntilColon : List Char → List Char
  | [] => []
  | c :: rest => if c = ':' then [] else c :: takeUntilColon rest

/-- The service component `cleanup` recovers from a request-table key. -/
def serviceOf (key : String) : String :=
  String.mk (takeUntilColon key.data)

/-- One iteration of the `cleanup` loop: filter the entry's records against
its service's window, delete the entry when nothing survives. -/
def cleanupEntry (configs : List (String × RateLimitConfig)) (now : Int)
    (kv : String × List RequestRecord) : Option (String × List RequestRecord) :=
  let config := lookupConfig configs (serviceOf kv.1)
  let validRequests := kv.2.filter fun req => now - req.timestamp < config.windowMs
  if validRequests.length = 0 then none else some (kv.1, validRequests)

/-- `RateLimiter.cleanup`: every entry of the request table is pruned in
place, and entries left empty are deleted.  (A JS `Map` permits deleting or
replacing the entry under iteration, and the loop only ever touches the
current key, so the mutation loop is a `filterMap`.) -/
def cleanup (rl : RateLimiter) (now : Int) : RateLimiter :=
  { rl with requests := rl.requests.filterMap (cleanupEntry rl.configs now) }

/-- `Math.ceil(a / b)` for integer `a` and positive integer `b`. -/
def jsCeilDiv (a b : Int) : Int := -(-a / b)

/-- The rate-limit error message thrown by `withRateLimit`. -/
def rateLimitMessage (service : String) (waitTime : Int) : String :=
  "Rate limit exceeded for " ++ service ++ ". Try again in " ++ toString waitTime ++ " seconds."

/-- `withRateLimit(service, identifier, operation)`.  The wrapped operation is
modelled as a transformer of an external state `σ` that either returns a value
or throws (`Except.error`); thrown errors are their message strings.  The
result is the updated limiter, the external state, and the outcome. -/
def withRateLimit {σ α : Type} (rl : RateLimiter) (now : Int)
    (service identifier : String) (operation : σ → σ × Except String α) (st : σ) :
    RateLimiter × σ × Except String α :=
  let checked := checkLimit rl now service identifier
  if checked.1 then
    let res := operation st
    (checked.2, res.1, res.2)
  else
    let waitTime : Int :=
      match getResetTime checked.2 service identifier with
      | some resetTime => jsCeilDiv (resetTime - now) 1000
      | none => 60
    (checked.2, st, Except.error (rateLimitMessage service waitTime))

/-! ## Traces of `checkLimit` calls -/

/-- Run a sequence of `checkLimit` calls; each event is
`(clock value, service, identifier)`. -/
def runChecks (rl : RateLimiter) : List (Int × String × String) → RateLimiter
  | [] => rl
  | e :: rest => runChecks (checkLimit rl e.1 e.2.1 e.2.2).2 rest

/-- The clock value after a sequence of events (the last event's time, or the
starting time for the empty sequence). -/
def lastTime (t0 : Int) : List (Int × String × String) → Int
  | [] => t0
  | e :: rest => lastTime e.1 rest

/-- A stored window is sorted by timestamp (requests were appended in clock
order). -/
def WindowSorted (w : List RequestRecord) : Prop :=
  w.Pairwise fun a b => a.timestamp ≤ b.timestamp

/-- All timestamps in the request table are at most `t0`. -/
def TimesBounded (rl : RateLimiter) (t0 : Int) : Prop :=
  ∀ k w, lookupA rl.requests k = some w → ∀ r ∈ w, r.timestamp ≤ t0

/-- Every stored window is sorted by timestamp. -/
def AllSorted (rl : RateLimiter) : Prop :=
  ∀ k w, lookupA rl.requests k = some w → WindowSorted w

theorem checkLimit_preserves_sorted (rl : RateLimiter) (t0 now : Int)
    (service identifier : String) (hb : TimesBounded rl t0) (hs : AllSorted rl)
    (hnow : t0 ≤ now) :
    TimesBounded (checkLimit rl now service identifier).2 now
      ∧ AllSorted (checkLimit rl now service identifier).2 := by
  have hwin : ∀ r ∈ windowOf rl service identifier, r.timestamp ≤ t0 := by
    intro r hr
    unfold windowOf at hr
    cases hlk : lookupA rl.requests (mkKey service identifier) with
    | none => rw [hlk] at hr; simp at hr
    | some w => rw [hlk] at hr; exact hb _ _ hlk r hr
  have hwins : WindowSorted (windowOf rl service identifier) := by
    unfold windowOf
    cases hlk : lookupA rl.requests (mkKey service identifier) with
    | none => simp [WindowSorted]
    | some w => exact hs _ _ hlk
  have hpr : ∀ r ∈ prunedWindow rl now service identifier, r.timestamp ≤ t0 := by
    intro r hr
    exact hwin r (List.mem_of_mem_filter hr)
  have hprs : WindowSorted (prunedWindow rl now service identifier) :=
    hwins.sublist (List.filter_sublist _)
  rw [checkLimit_eq]
  by_cases h : (prunedWindow rl now service identifier).length ≥
      (lookupConfig rl.configs service).maxRequests
  · rw [if_pos h]
    constructor
    · intro k w hk r hr
      by_cases hkk : k = mkKey service identifier
      · subst hkk
        rw [lookupA_setA_self] at hk
        cases hk
        exact le_trans (hpr r hr) hnow
      · rw [lookupA_setA_ne _ _ _ _ hkk] at hk
        exact le_trans (hb _ _ hk r hr) hnow
    · intro k w hk
      by_cases hkk : k = mkKey service identifier
      · subst hkk
        rw [lookupA_setA_self] at hk
        cases hk
        exact hprs
      · rw [lookupA_setA_ne _ _ _ _ hkk] at hk
        exact hs _ _ hk
  · rw [if_neg h]
    constructor
    · intro k w hk r hr
      by_cases hkk : k = mkKey service identifier
      · subst hkk
        rw [lookupA_setA_self] at hk
        cases hk
        rcases List.mem_append.mp hr with hr | hr
        · exact le_trans (hpr r hr) hnow
        · simp at hr
          subst hr
          exact le_refl now
      · rw [lookupA_setA_ne _ _ _ _ hkk] at hk
        exact le_trans (hb _ _ hk r hr) hnow
    · intro k w hk
      by_cases hkk : k = mkKey service identifier
      · subst hkk
        rw [lookupA_setA_self] at hk
        cases hk
        rw [WindowSorted, List.pairwise_append]
        refine ⟨hprs, List.pairwise_singleton _ _, ?_⟩
        intro a ha b hb'
        simp at hb'
        subst hb'
        exact le_trans (hpr a ha) hnow
      · rw [lookupA_setA_ne _ _ _ _ hkk] at hk
        exact hs _ _ hk

theorem runChecks_inv_sorted (events : List (Int × String × String)) :
    ∀ (rl : RateLimiter) (t0 : Int), TimesBounded rl t0 → AllSorted rl →
    (∀ e ∈ events, t0 ≤ e.1) → events.Pairwise (fun a b => a.1 ≤ b.1) →
    TimesBounded (runChecks rl events) (lastTime t0 events)
      ∧ AllSorted (runChecks rl events) := by
  induction events with
  | nil => intro rl t0 hb hs _ _; exact ⟨hb, hs⟩
  | cons e rest ih =>
    intro rl t0 hb hs hle hmono
    have he : t0 ≤ e.1 := hle e (List.mem_cons_self e rest)
    obtain ⟨hb', hs'⟩ := checkLimit_preserves_sorted rl t0 e.1 e.2.1 e.2.2 hb hs he
    rw [List.pairwise_cons] at hmono
    exact ih _ e.1 hb' hs' (fun e' he' => hmono.1 e' he') hmono.2

theorem initial_bounded (t0 : Int) : TimesBounded initialRateLimiter t0 := by
  intro k w hk
  simp [initialRateLimiter, lookupA] at hk

theorem initial_sorted : AllSorted initialRateLimiter := by
  intro k w hk
  simp [initialRateLimiter, lookupA] at hk

theorem runChecks_sorted (events : List (Int × String × String))
    (hmono : events.Pairwise (fun a b => a.1 ≤ b.1))
    (service identifier : String) :
    WindowSorted (windowOf (runChecks initialRateLimiter events) service identifier) := by
  set t0 : Int := ((events.head?.map fun e => e.1).getD 0) with ht0
  have hle : ∀ e ∈ events, t0 ≤ e.1 := by
    cases events with
    | nil => intro e he; simp at he
    | cons e' rest =>
      intro e he
      rcases List.mem_cons.mp he with rfl | he
      · simp [ht0]
      · rw [List.pairwise_cons] at hmono
        have := hmono.1 e he
        simp [ht0]
        exact this
  obtain ⟨_, hs⟩ := runChecks_inv_sorted events initialRateLimiter t0
    (initial_bounded t0) initial_sorted hle hmono
  unfold windowOf
  cases hlk : lookupA (runChecks initialRateLimiter events).requests
      (mkKey service identifier) with
  | none => simp [WindowSorted]
  | some w => exact hs _ _ hlk

/-- C7: `getResetTime(service, identifier)` returns `null` exactly when no
requests are recorded under the `(service, identifier)` key, and otherwise
`requests[0].timestamp + config.windowMs`.  In every state reachable by
`checkLimit` calls at non-decreasing clock times the stored window is sorted,
so `requests[0]` is the oldest recorded request.  The function takes no clock
argument (it never consults the current time) and returns no state (it neither
prunes nor otherwise modifies the stored window). -/
theorem getResetTime_spec (rl : RateLimiter) (service identifier : String) :
    (getResetTime rl service identifier = none ↔ windowOf rl service identifier = [])
    ∧ (∀ r rest, windowOf rl service identifier = r :: rest →
        getResetTime rl service identifier =
          some (r.timestamp + (lookupConfig rl.configs service).windowMs)
        ∧ (WindowSorted (windowOf rl service identifier) →
            ∀ x ∈ windowOf rl service identifier, r.timestamp ≤ x.timestamp))
    ∧ (∀ events, events.Pairwise (fun a b => a.1 ≤ b.1) →
        WindowSorted (windowOf (runChecks initialRateLimiter events) service identifier)) := by
  refine ⟨?_, ?_, ?_⟩
  · unfold getResetTime windowOf
    cases (lookupA rl.requests (mkKey service identifier)).getD [] with
    | nil => simp
    | cons r rest => simp
  · intro r rest hw
    constructor
    · unfold getResetTime
      unfold windowOf at hw
      rw [hw]
    · intro hsorted x hx
      rw [hw] at hsorted hx
      rcases List.mem_cons.mp hx with rfl | hx
      · exact le_refl _
      · exact (List.pairwise_cons.mp hsorted).1 x hx
  · intro events hmono
    exact runChecks_sorted events hmono service identifier

/-! ## Capacity of the rate windows (C1)

`checkLimit` keys its table by the concatenation `` `${service}:${identifier}` ``,
so two distinct `(service, identifier)` pairs share a key exactly when a
service name itself contains `':'`.  For colon-free service names the key is
injective and the per-key capacity bound holds. -/

/-- The string contains no `':'`. -/
@[reducible] def colonFree (s : String) : Prop := ':' ∉ s.data

theorem append_colon_inj (l1 : List Char) :
    ∀ (l2 r1 r2 : List Char), ':' ∉ l1 → ':' ∉ l2 →
    l1 ++ ':' :: r1 = l2 ++ ':' :: r2 → l1 = l2 ∧ r1 = r2 := by
  induction l1 with
  | nil =>
    intro l2 r1 r2 _ h2 h
    cases l2 with
    | nil => simpa using h
    | cons c l2' =>
      simp only [List.nil_append, List.cons_append, List.cons.injEq] at h
      exact absurd (h.1 ▸ List.mem_cons_self c l2') h2
  | cons c l1' ih =>
    intro l2 r1 r2 h1 h2 h
    cases l2 with
    | nil =>
      simp only [List.cons_append, List.nil_append, List.cons.injEq] at h
      exact absurd (h.1 ▸ List.mem_cons_self c l1') h1
    | cons d l2' =>
      simp only [List.cons_append, List.cons.injEq] at h
      have h1' : ':' ∉ l1' := fun hm => h1 (List.mem_cons_of_mem c hm)
      have h2' : ':' ∉ l2' := fun hm => h2 (List.mem_cons_of_mem d hm)
      obtain ⟨he, ht⟩ := ih l2' r1 r2 h1' h2' h.2
      exact ⟨by rw [h.1, he], ht⟩

theorem mkKey_inj (s i s' i' : String) (hs : colonFree s) (hs' : colonFree s')
    (h : mkKey s i = mkKey s' i') : s = s' ∧ i = i' := by
  obtain ⟨ls⟩ := s
  obtain ⟨li⟩ := i
  obtain ⟨ls'⟩ := s'
  obtain ⟨li'⟩ := i'
  unfold mkKey at h
  have hd : ls ++ ':' :: li = ls' ++ ':' :: li' := by
    have := congrArg String.data h
    simpa [String.data_append] using this
  obtain ⟨h1, h2⟩ := append_colon_inj ls ls' li li' hs hs' hd
  exact ⟨by rw [h1], by rw [h2]⟩

/-- The per-key capacity invariant: every colon-free `(service, identifier)`
pair's window holds at most `maxRequests` in-window timestamps, at every clock
value from `t0` on. -/
def CapBounded (rl : RateLimiter) (t0 : Int) : Prop :=
  ∀ service identifier, colonFree service → ∀ T, t0 ≤ T →
    countInWindow rl T service identifier ≤ (lookupConfig rl.configs service).maxRequests

theorem prunedAt_prunedAt_length_le (w : List RequestRecord) (now T windowMs : Int) :
    (prunedAt (prunedAt w now windowMs) T windowMs).length ≤ (prunedAt w T windowMs).length :=
  List.Sublist.length_le (List.Sublist.filter _ (List.filter_sublist w))

theorem checkLimit_preserves_cap (rl : RateLimiter) (t0 now : Int)
    (service identifier : String) (hc : CapBounded rl t0)
    (hfree : colonFree service) (hnow : t0 ≤ now) :
    CapBounded (checkLimit rl now service identifier).2 now := by
  intro s i hsfree T hT
  have hTt0 : t0 ≤ T := le_trans hnow hT
  have hconfigs : (checkLimit rl now service identifier).2.configs = rl.configs := by
    rw [checkLimit_eq]
    by_cases h : (prunedWindow rl now service identifier).length ≥
        (lookupConfig rl.configs service).maxRequests
    · rw [if_pos h]
    · rw [if_neg h]
  by_cases hkey : mkKey s i = mkKey service identifier
  · obtain ⟨hseq, hieq⟩ := mkKey_inj s i service identifier hsfree hfree hkey
    subst hseq; subst hieq
    unfold countInWindow
    rw [hconfigs]
    have hwin : windowOf (checkLimit rl now s i).2 s i =
        (if (prunedWindow rl now s i).length < (lookupConfig rl.configs s).maxRequests then
          prunedWindow rl now s i ++ [⟨now, 1⟩]
        else prunedWindow rl now s i) :=
      (checkLimit_prunes_then_decides rl now s i).2.2.1
    rw [hwin]
    by_cases h : (prunedWindow rl now s i).length < (lookupConfig rl.configs s).maxRequests
    · rw [if_pos h]
      unfold prunedAt
      rw [List.filter_append, List.length_append]
      have h1 : ((prunedWindow rl now s i).filter
          fun req => decide (T - req.timestamp < (lookupConfig rl.configs s).windowMs)).length
            ≤ (prunedWindow rl now s i).length :=
        List.Sublist.length_le (List.filter_sublist _)
      have h2 : ([(⟨now, 1⟩ : RequestRecord)].filter
          fun req => decide (T - req.timestamp < (lookupConfig rl.configs s).windowMs)).length ≤ 1 :=
        List.Sublist.length_le (List.filter_sublist _)
      omega
    · rw [if_neg h]
      calc (prunedAt (prunedWindow rl now s i) T (lookupConfig rl.configs s).windowMs).length
          ≤ (prunedAt (windowOf rl s i) T (lookupConfig rl.configs s).windowMs).length :=
            prunedAt_prunedAt_length_le _ _ _ _
        _ ≤ (lookupConfig rl.configs s).maxRequests := hc s i hsfree T hTt0
  · unfold countInWindow
    rw [hconfigs]
    have hwin : windowOf (checkLimit rl now service identifier).2 s i = windowOf rl s i := by
      unfold windowOf
      rw [(checkLimit_prunes_then_decides rl now service identifier).2.2.2.2 _ hkey]
    rw [hwin]
    exact hc s i hsfree T hTt0

theorem initial_cap (t0 : Int) : CapBounded initialRateLimiter t0 := by
  intro s i _ T _
  simp [countInWindow, windowOf, initialRateLimiter, lookupA, prunedAt]

theorem runChecks_cap (events : List (Int × String × String)) :
    ∀ (rl : RateLimiter) (t0 : Int), CapBounded rl t0 →
    (∀ e ∈ events, t0 ≤ e.1) → events.Pairwise (fun a b => a.1 ≤ b.1) →
    (∀ e ∈ events, colonFree e.2.1) →
    CapBounded (runChecks rl events) (lastTime t0 events) := by
  induction events with
  | nil => intro rl t0 hc _ _ _; exact hc
  | cons e rest ih =>
    intro rl t0 hc hle hmono hfree
    have he : t0 ≤ e.1 := hle e (List.mem_cons_self e rest)
    have hc' : CapBounded (checkLimit rl e.1 e.2.1 e.2.2).2 e.1 :=
      checkLimit_preserves_cap rl t0 e.1 e.2.1 e.2.2 hc
        (hfree e (List.mem_cons_self e rest)) he
    rw [List.pairwise_cons] at hmono
    exact ih _ e.1 hc' (fun e' he' => hmono.1 e' he') hmono.2
      (fun e' he' => hfree e' (List.mem_cons_of_mem e he'))

theorem lastTime_le (events : List (Int × String × String)) :
    ∀ t0 T : Int, t0 ≤ T → (∀ e ∈ events, e.1 ≤ T) → lastTime t0 events ≤ T := by
  induction events with
  | nil => intro t0 T h _; exact h
  | cons e rest ih =>
    intro t0 T _ hle
    exact ih e.1 T (hle e (List.mem_cons_self e rest))
      (fun e' he' => hle e' (List.mem_cons_of_mem e he'))

/-- C1 (amended): after any sequence of `checkLimit` calls at non-decreasing
clock times **in which no service name contains `':'`**, the stored rate
window of every colon-free `(service, identifier)` key holds at most the
configured `maxRequests` timestamps younger than the configured `windowMs`,
at the final call's clock and at every later clock value.  (Without the
colon-freeness proviso the bound fails: see the counterexample, where the
pairs `("perplexity:x", "y")` and `("perplexity", "x:y")` share one key but
are governed by different configurations.) -/
theorem rateWindow_capacity (events : List (Int × String × String))
    (hmono : events.Pairwise (fun a b => a.1 ≤ b.1))
    (hfree : ∀ e ∈ events, colonFree e.2.1)
    (service identifier : String) (hs : colonFree service)
    (T : Int) (hT : ∀ e ∈ events, e.1 ≤ T) :
    countInWindow (runChecks initialRateLimiter events) T service identifier
      ≤ (lookupConfig initialRateLimiter.configs service).maxRequests := by
  set t0 : Int := ((events.head?.map fun e => e.1).getD T) with ht0
  have hle : ∀ e ∈ events, t0 ≤ e.1 := by
    cases events with
    | nil => intro e he; simp at he
    | cons e' rest =>
      intro e he
      rcases List.mem_cons.mp he with rfl | he
      · simp [ht0]
      · rw [List.pairwise_cons] at hmono
        have := hmono.1 e he
        simp [ht0]
        exact this
  have ht0T : t0 ≤ T := by
    cases events with
    | nil => simp [ht0]
    | cons e' rest =>
      have : t0 ≤ e'.1 := hle e' (List.mem_cons_self e' rest)
      exact le_trans this (hT e' (List.mem_cons_self e' rest))
  have hcap := runChecks_cap events initialRateLimiter t0 (initial_cap t0) hle hmono hfree
  have hlast : lastTime t0 events ≤ T := lastTime_le events t0 T ht0T hT
  have := hcap service identifier hs T hlast
  have hconf : (runChecks initialRateLimiter events).configs = initialRateLimiter.configs := by
    have hgen : ∀ (evs : List (Int × String × String)) (rl : RateLimiter),
        (runChecks rl evs).configs = rl.configs := by
      intro evs
      induction evs with
      | nil => intro rl; rfl
      | cons e rest ih =>
        intro rl
        show (runChecks (checkLimit rl e.1 e.2.1 e.2.2).2 rest).configs = rl.configs
        rw [ih, (checkLimit_prunes_then_decides rl e.1 e.2.1 e.2.2).2.2.2.1]
    exact hgen events initialRateLimiter
  rwa [hconf] at this

set_option maxRecDepth 100000 in
/-- C1 counterexample: the claim as stated fails because the composite key is
not injective.  Twenty-one calls at clock `0` (trivially non-decreasing) for
service `"perplexity:x"` and identifier `"y"` are all admitted under the
`'default'` config (`maxRequests = 100`), yet they all land in the window of
the key for service `"perplexity"` (configured `maxRequests = 20`) and
identifier `"x:y"`, whose in-window count then exceeds its configured
capacity. -/
theorem rateWindow_capacity_counterexample :
    (List.replicate 21 ((0 : Int), "perplexity:x", "y")).Pairwise (fun a b => a.1 ≤ b.1)
    ∧ (lookupConfig initialRateLimiter.configs "perplexity").maxRequests = 20
    ∧ countInWindow
        (runChecks initialRateLimiter (List.replicate 21 ((0 : Int), "perplexity:x", "y")))
        0 "perplexity" "x:y" = 21 := by
  refine ⟨?_, ?_, ?_⟩
  · decide
  · decide
  · decide

/-! ## `cleanup` (C8) -/

theorem cleanupEntry_fst (configs : List (String × RateLimitConfig)) (now : Int)
    (kv : String × List RequestRecord) (r : String × List RequestRecord)
    (h : cleanupEntry configs now kv = some r) : r.1 = kv.1 := by
  unfold cleanupEntry at h
  by_cases hlen : (kv.2.filter fun req =>
      now - req.timestamp < (lookupConfig configs (serviceOf kv.1)).windowMs).length = 0
  · simp [hlen] at h
  · simp [hlen] at h
    rw [← h]

theorem lookupA_filterMap_none (configs : List (String × RateLimitConfig)) (now : Int) :
    ∀ (m : List (String × List RequestRecord)) (k : String),
    k ∉ m.map Prod.fst → lookupA (m.filterMap (cleanupEntry configs now)) k = none := by
  intro m
  induction m with
  | nil => intro k _; rfl
  | cons kv rest ih =>
    intro k hk
    simp only [List.map_cons, List.mem_cons] at hk
    push_neg at hk
    rw [List.filterMap_cons]
    cases hce : cleanupEntry configs now kv with
    | none => exact ih k hk.2
    | some r =>
      have hr : r.1 = kv.1 := cleanupEntry_fst configs now kv r hce
      obtain ⟨rk, rv⟩ := r
      have h1 : ¬ rk = k := by
        simp only at hr
        rw [hr]
        exact fun hh => hk.1 hh.symm
      simp [lookupA, h1, ih k hk.2]

theorem lookupA_cleanup (configs : List (String × RateLimitConfig)) (now : Int) :
    ∀ (m : List (String × List RequestRecord)), (m.map Prod.fst).Nodup → ∀ k,
    lookupA (m.filterMap (cleanupEntry configs now)) k
      = (lookupA m k).bind fun w => (cleanupEntry configs now (k, w)).map Prod.snd := by
  intro m
  induction m with
  | nil => intro _ k; rfl
  | cons kv rest ih =>
    intro hnd k
    obtain ⟨k', w⟩ := kv
    simp only [List.map_cons, List.nodup_cons] at hnd
    rw [List.filterMap_cons]
    by_cases hkk : k' = k
    · subst hkk
      cases hce : cleanupEntry configs now (k', w) with
      | none => simp [lookupA, lookupA_filterMap_none configs now rest k' hnd.1, hce]
      | some r =>
        have hr : r.1 = k' := cleanupEntry_fst configs now (k', w) r hce
        obtain ⟨rk, rv⟩ := r
        simp only at hr
        subst hr
        simp [lookupA, hce]
    · cases hce : cleanupEntry configs now (k', w) with
      | none => simp [lookupA, hkk, ih hnd.2 k]
      | some r =>
        have hr : r.1 = k' := cleanupEntry_fst configs now (k', w) r hce
        obtain ⟨rk, rv⟩ := r
        simp only at hr
        subst hr
        simp [lookupA, hkk, ih hnd.2 k]

theorem filter_isSuffix_of_upward (p : RequestRecord → Bool) :
    ∀ (w : List RequestRecord), WindowSorted w →
    (∀ a b : RequestRecord, a.timestamp ≤ b.timestamp → p a = true → p b = true) →
    (w.filter p).IsSuffix w := by
  intro w
  induction w with
  | nil => intro _ _; exact List.suffix_refl []
  | cons x rest ih =>
    intro hs hup
    have hs' : WindowSorted rest := (List.pairwise_cons.mp hs).2
    cases hpx : p x with
    | false =>
      rw [List.filter_cons_of_neg (by simp [hpx])]
      exact (ih hs' hup).trans (List.suffix_cons x rest)
    | true =>
      rw [List.filter_cons_of_pos (by simp [hpx])]
      have hall : ∀ b ∈ rest, p b = true := fun b hb =>
        hup x b ((List.pairwise_cons.mp hs).1 b hb) hpx
      rw [List.filter_eq_self.mpr hall]

theorem cleanupEntry_eq (configs : List (String × RateLimitConfig)) (now : Int)
    (k : String) (w : List RequestRecord) :
    cleanupEntry configs now (k, w) =
      (if (w.filter fun req =>
          now - req.timestamp < (lookupConfig configs (serviceOf k)).windowMs).length = 0
       then none
       else some (k, w.filter fun req =>
          now - req.timestamp < (lookupConfig configs (serviceOf k)).windowMs)) := rfl

/-- C8: `cleanup` deletes exactly those request-table keys whose records have
all aged past their service's `windowMs` (the service being recovered from the
key as `key.split(':')[0]`), replaces every surviving key's list by its
in-window records — which, the stored lists being sorted by timestamp, form a
suffix of the old list — and leaves the configuration table and absent keys
untouched.  The key-uniqueness hypothesis is the `Map` representation
invariant. -/
theorem cleanup_spec (rl : RateLimiter) (now : Int)
    (hnd : (rl.requests.map Prod.fst).Nodup) :
    (cleanup rl now).configs = rl.configs
    ∧ (∀ k, lookupA rl.requests k = none → lookupA (cleanup rl now).requests k = none)
    ∧ (∀ k w, lookupA rl.requests k = some w →
        lookupA (cleanup rl now).requests k =
          (if (w.filter fun req =>
              now - req.timestamp < (lookupConfig rl.configs (serviceOf k)).windowMs).length = 0
           then none
           else some (w.filter fun req =>
              now - req.timestamp < (lookupConfig rl.configs (serviceOf k)).windowMs)))
    ∧ (∀ k w, lookupA rl.requests k = some w →
        ((w.filter fun req =>
            now - req.timestamp < (lookupConfig rl.configs (serviceOf k)).windowMs) = [] ↔
          ∀ r ∈ w, (lookupConfig rl.configs (serviceOf k)).windowMs ≤ now - r.timestamp))
    ∧ (∀ k w, lookupA rl.requests k = some w → WindowSorted w →
        (w.filter fun req =>
          now - req.timestamp < (lookupConfig rl.configs (serviceOf k)).windowMs).IsSuffix w) := by
  refine ⟨rfl, ?_, ?_, ?_, ?_⟩
  · intro k hk
    show lookupA (rl.requests.filterMap (cleanupEntry rl.configs now)) k = none
    rw [lookupA_cleanup rl.configs now rl.requests hnd k, hk]
    rfl
  · intro k w hk
    show lookupA (rl.requests.filterMap (cleanupEntry rl.configs now)) k = _
    rw [lookupA_cleanup rl.configs now rl.requests hnd k, hk]
    show (cleanupEntry rl.configs now (k, w)).map Prod.snd = _
    rw [cleanupEntry_eq]
    by_cases hlen : (w.filter fun req =>
        now - req.timestamp < (lookupConfig rl.configs (serviceOf k)).windowMs).length = 0
    · rw [if_pos hlen, if_pos hlen]
      rfl
    · rw [if_neg hlen, if_neg hlen]
      rfl
  · intro k w _
    rw [List.filter_eq_nil_iff]
    constructor
    · intro h r hr
      have := h r hr
      simp only [decide_eq_true_eq] at this
      omega
    · intro h r hr
      have := h r hr
      simp only [decide_eq_true_eq]
      omega
  · intro k w _ hsorted
    apply filter_isSuffix_of_upward _ w hsorted
    intro a b hab ha
    simp only [decide_eq_true_eq] at ha ⊢
    omega

/-! ## `withRateLimit` (C3, C10) -/

theorem withRateLimit_eq {σ α : Type} (rl : RateLimiter) (now : Int)
    (service identifier : String) (operation : σ → σ × Except String α) (st : σ) :
    withRateLimit rl now service identifier operation st =
      if (checkLimit rl now service identifier).1 then
        ((checkLimit rl now service identifier).2, (operation st).1, (operation st).2)
      else
        ((checkLimit rl now service identifier).2, st,
          Except.error (rateLimitMessage service
            (match getResetTime (checkLimit rl now service identifier).2 service identifier with
             | some resetTime => jsCeilDiv (resetTime - now) 1000
             | none => 60))) := rfl

/-- C3: when `checkLimit` refuses, `withRateLimit` throws without consulting
the wrapped operation — the result does not mention `operation` and the
external state `st` comes back unchanged — and the error message names the
service and a wait of `Math.ceil((resetTime - now) / 1000)` seconds, `60` when
`getResetTime` returns `null`.  When `checkLimit` admits, it returns exactly
the operation's outcome and state. -/
theorem withRateLimit_spec {σ α : Type} (rl : RateLimiter) (now : Int)
    (service identifier : String) (operation : σ → σ × Except String α) (st : σ) :
    ((checkLimit rl now service identifier).1 = false →
      withRateLimit rl now service identifier operation st =
        ((checkLimit rl now service identifier).2, st,
          Except.error (rateLimitMessage service
            (match getResetTime (checkLimit rl now service identifier).2 service identifier with
             | some resetTime => jsCeilDiv (resetTime - now) 1000
             | none => 60)))
      ∧ ∀ operation₂ : σ → σ × Except String α,
          withRateLimit rl now service identifier operation st =
            withRateLimit rl now service identifier operation₂ st)
    ∧ ((checkLimit rl now service identifier).1 = true →
      withRateLimit rl now service identifier operation st =
        ((checkLimit rl now service identifier).2, (operation st).1, (operation st).2)) := by
  constructor
  · intro href
    constructor
    · rw [withRateLimit_eq, href]
      simp
    · intro operation₂
      rw [withRateLimit_eq, withRateLimit_eq, href]
      simp
  · intro hok
    rw [withRateLimit_eq, hok]
    simp

/-- C10: `withRateLimit` is not atomic with respect to the window on failure
of the wrapped operation.  Once `checkLimit` admits the call, the appended
record `{timestamp := now, count := 1}` stays in the `(service, identifier)`
window even when the operation throws, so at every clock value still inside
the window the failed call occupies one of the `maxRequests` slots. -/
theorem withRateLimit_records_failed_operation {σ α : Type} (rl : RateLimiter)
    (now : Int) (service identifier : String) (operation : σ → σ × Except String α)
    (st : σ) (e : String)
    (hallow : (checkLimit rl now service identifier).1 = true)
    (hfail : (operation st).2 = Except.error e) :
    withRateLimit rl now service identifier operation st =
      ((checkLimit rl now service identifier).2, (operation st).1, Except.error e)
    ∧ windowOf (checkLimit rl now service identifier).2 service identifier =
        prunedWindow rl now service identifier ++ [⟨now, 1⟩]
    ∧ (⟨now, 1⟩ : RequestRecord) ∈
        windowOf (checkLimit rl now service identifier).2 service identifier
    ∧ ∀ T : Int, T - now < (lookupConfig rl.configs service).windowMs →
        0 < countInWindow (checkLimit rl now service identifier).2 T service identifier := by
  have hlt : (prunedWindow rl now service identifier).length <
      (lookupConfig rl.configs service).maxRequests := by
    have h2 := (checkLimit_prunes_then_decides rl now service identifier).2.1
    rw [hallow] at h2
    exact of_decide_eq_true h2.symm
  have hwin : windowOf (checkLimit rl now service identifier).2 service identifier =
      prunedWindow rl now service identifier ++ [⟨now, 1⟩] := by
    have h3 := (checkLimit_prunes_then_decides rl now service identifier).2.2.1
    rw [if_pos hlt] at h3
    exact h3
  refine ⟨?_, hwin, ?_, ?_⟩
  · rw [withRateLimit_eq, hallow]
    simp [hfail]
  · rw [hwin]
    exact List.mem_append_right _ (List.mem_singleton.mpr rfl)
  · intro T hT
    unfold countInWindow
    rw [(checkLimit_prunes_then_decides rl now service identifier).2.2.2.1, hwin]
    unfold prunedAt
    rw [List.filter_append, List.length_append]
    have : ([(⟨now, 1⟩ : RequestRecord)].filter fun req =>
        decide (T - req.timestamp < (lookupConfig rl.configs service).windowMs)).length = 1 := by
      simp [hT]
    omega

/-! ## Dynamic JSON values

`JSON.parse` produces an arbitrary JSON value; the services then probe it
with JavaScript truthiness.  `JSON.parse` itself is a JS builtin, treated as
an oracle parameter `jsonParse : String → Option Json` (`none` models a parse
exception).  Numbers are modelled as integers — the scores and counts the
code manipulates are integral. -/

inductive Json where
  | null
  | bool (b : Bool)
  | num (n : Int)
  | str (s : String)
  | arr (elements : List Json)
  | obj (fields : List (String × Json))

/-- JS property access `j.k` (`none` is `undefined`). -/
def getField : Json → String → Option Json
  | .obj fields, k => lookupA fields k
  | _, _ => none

/-- JS property assignment `j.k = v` (meaningful only on objects, which is
the only shape that reaches the mutation sites). -/
def setField (j : Json) (k : String) (v : Json) : Json :=
  match j with
  | .obj fields => .obj (setA fields k v)
  | other => other

/-- JavaScript truthiness of a possibly-absent value: `undefined`, `null`,
`false`, `0` and `''` are falsy; arrays and objects are truthy. -/
def truthy : Option Json → Bool
  | none => false
  | some .null => false
  | some (.bool b) => b
  | some (.num n) => decide (n ≠ 0)
  | some (.str s) => decide (s ≠ "")
  | some (.arr _) => true
  | some (.obj _) => true

/-- `Array.isArray`. -/
def isArray : Option Json → Bool
  | some (.arr _) => true
  | _ => false

/-- `typeof v === 'string'`. -/
def isString : Option Json → Bool
  | some (.str _) => true
  | _ => false

/-- `.length` of an array value (only queried on arrays). -/
def jsArrayLength : Option Json → Nat
  | some (.arr elements) => elements.length
  | _ => 0

/-! ## String helpers mirroring the JS string operations -/

/-- The characters up to and including the last `'}'`, when one exists. -/
def extractJsonChars : List Char → Option (List Char)
  | [] => none
  | c :: rest =>
    if c = '{' then
      let tail := rest.reverse.dropWhile fun ch => ch ≠ '}'
      if tail.isEmpty then none else some ('{' :: tail.reverse)
    else extractJsonChars rest

/-- `content.match(/\{[\s\S]*\}/)`: the (greedy) match runs from the first
`'{'` to the last `'}'` after it; `none` when there is no such block. -/
def extractJson (s : String) : Option String :=
  (extractJsonChars s.data).map fun cs => String.mk cs

/-- Drop characters up to and including the first `'>'`. -/
def dropTag : List Char → List Char
  | [] => []
  | c :: rest => if c = '>' then rest else dropTag rest

theorem dropTag_length_le : ∀ cs : List Char, (dropTag cs).length ≤ cs.length := by
  intro cs
  induction cs with
  | nil => exact le_refl 0
  | cons c rest ih =>
    unfold dropTag
    by_cases h : c = '>'
    · rw [if_pos h]
      exact Nat.le_succ_of_le (le_refl _)
    · rw [if_neg h]
      exact Nat.le_succ_of_le ih

/-- `.replace(/<[^>]*>/g, '')`: each match runs from a `'<'` to the first
`'>'` after it (the `[^>]*` body may contain further `'<'`); a `'<'` with no
later `'>'` matches nothing. -/
def stripTagsChars (cs : List Char) : List Char :=
  match cs with
  | [] => []
  | c :: rest =>
    if c = '<' ∧ '>' ∈ rest then stripTagsChars (dropTag rest)
    else c :: stripTagsChars rest
termination_by cs.length
decreasing_by
· simp only [List.length_cons]
  exact Nat.lt_succ_of_le (dropTag_length_le rest)
· simp only [List.length_cons]
  exact Nat.lt_succ_self _

/-- HTML-tag stripping on strings. -/
def stripTags (s : String) : String := String.mk (stripTagsChars s.data)

/-- `s.substring(0, n)`. -/
def jsSubstring0 (s : String) (n : Nat) : String := String.mk (s.data.take n)

/-- JS whitespace for `String.prototype.trim` (the ASCII portion). -/
def isWs (c : Char) : Bool :=
  c = ' ' ∨ c = '\t' ∨ c = '\n' ∨ c = '\r' ∨ c = '\x0b' ∨ c = '\x0c'

/-- `s.trim()`. -/
def jsTrim (s : String) : String :=
  String.mk (((s.data.dropWhile isWs).reverse.dropWhile isWs).reverse)

/-! ## The writing-service response parser (`ClaudeService.parseBlogResponse`) -/

/-- One element of `response.content` in the SDK message: a text block or a
block of another type. -/
inductive ContentBlock where
  | text (t : String)
  | nonText
deriving DecidableEq

/-- `response.content`: the array case and the (defensive) string case. -/
inductive MessageContent where
  | blocks (bs : List ContentBlock)
  | str (s : String)
deriving DecidableEq

/-- The `content` accumulation at the head of `parseBlogResponse`: text
blocks filtered and joined. -/
def contentText : MessageContent → String
  | .blocks bs =>
    String.join (bs.filterMap fun b => match b with | .text t => some t | .nonText => none)
  | .str s => s

/-- The fallback blog post returned when parsing fails. -/
def fallbackBlog : Json :=
  Json.obj
    [("title", .str "Blog Post Generation Failed"),
     ("content", .str "<p>There was an error generating the blog post. Please try again with different inputs.</p>"),
     ("metaDescription", .str "Blog post generation encountered an error. Please retry."),
     ("tags", .arr [.str "error", .str "retry"]),
     ("seoScore", .num 0),
     ("excerpt", .str "Blog post generation failed. Please try again.")]

/-- The three `||`-default assignments at the tail of `parseBlogResponse`:
`parsed.tags = parsed.tags || []`, `parsed.seoScore = parsed.seoScore || 75`,
`parsed.excerpt = parsed.excerpt || parsed.content.substring(0, 200).replace(/<[^>]*>/g, '') + '...'`.
The catch-all arm models the `TypeError` raised by `.substring` when
`content` is truthy but not a string, which the surrounding `try/catch`
turns into the fallback. -/
def blogFixups (parsed : Json) : Json :=
  let withTags :=
    if truthy (getField parsed "tags") then parsed
    else setField parsed "tags" (Json.arr [])
  let withScore :=
    if truthy (getField withTags "seoScore") then withTags
    else setField withTags "seoScore" (Json.num 75)
  if truthy (getField withScore "excerpt") then withScore
  else
    match getField withScore "content" with
    | some (Json.str c) =>
      setField withScore "excerpt" (Json.str (stripTags (jsSubstring0 c 200) ++ "..."))
    | _ => fallbackBlog

/-- `ClaudeService.parseBlogResponse`. -/
def parseBlogResponse (jsonParse : String → Option Json) (response : MessageContent) : Json :=
  let content := contentText response
  match extractJson content with
  | none => fallbackBlog
  | some block =>
    match jsonParse block with
    | none => fallbackBlog
    | some parsed =>
      if truthy (getField parsed "title") && truthy (getField parsed "content")
          && truthy (getField parsed "metaDescription") then
        blogFixups parsed
      else fallbackBlog

/-! ## The research-service response parser (`PerplexityService.parseAnalysisResponse`) -/

structure PerplexityMessage where
  content : String
deriving DecidableEq

structure PerplexityChoice where
  message : PerplexityMessage
deriving DecidableEq

structure PerplexityResponse where
  choices : List PerplexityChoice
deriving DecidableEq

/-- `response.choices[0]?.message?.content || ''`. -/
def responseContent (r : PerplexityResponse) : String :=
  match r.choices with
  | [] => ""
  | c :: _ => c.message.content

/-- The fallback analysis returned when parsing fails. -/
def fallbackAnalysis : Json :=
  Json.obj
    [("keyInsights", .arr [.str "Analysis failed - manual review needed"]),
     ("mainThemes", .arr [.str "General content"]),
     ("currentTrends", .arr [.str "Current industry trends"]),
     ("seoKeywords", .arr [.str "content", .str "blog", .str "article"]),
     ("factualClaims", .arr [.str "Claims need verification"]),
     ("citations", .arr [.str "Manual citation needed"])]

/-- `PerplexityService.parseAnalysisResponse`. -/
def parseAnalysisResponse (jsonParse : String → Option Json) (r : PerplexityResponse) : Json :=
  let content := responseContent r
  match extractJson content with
  | none => fallbackAnalysis
  | some block =>
    match jsonParse block with
    | none => fallbackAnalysis
    | some parsed =>
      if truthy (getField parsed "keyInsights") && isArray (getField parsed "keyInsights") then
        parsed
      else fallbackAnalysis

theorem getField_obj (l : List (String × Json)) (k : String) :
    getField (Json.obj l) k = lookupA l k := rfl

theorem setField_obj (l : List (String × Json)) (k : String) (v : Json) :
    setField (Json.obj l) k v = Json.obj (setA l k v) := rfl

/-- C4: both response parsers are total with fallback defaults — whenever the
text has no `{...}` block, the block does not parse as JSON, or the parsed
object lacks the required fields (truthy `title`/`content`/`metaDescription`
for the blog parser, a `keyInsights` array for the analysis parser), the
fixed fallback object is returned; being plain functions into `Json`, neither
parser can throw to its caller. -/
theorem parsers_total_with_fallback :
    (∀ (jsonParse : String → Option Json) (response : MessageContent),
        extractJson (contentText response) = none →
        parseBlogResponse jsonParse response = fallbackBlog)
    ∧ (∀ (jsonParse : String → Option Json) (response : MessageContent) (block : String),
        extractJson (contentText response) = some block → jsonParse block = none →
        parseBlogResponse jsonParse response = fallbackBlog)
    ∧ (∀ (jsonParse : String → Option Json) (response : MessageContent)
        (block : String) (parsed : Json),
        extractJson (contentText response) = some block → jsonParse block = some parsed →
        (truthy (getField parsed "title") = false ∨ truthy (getField parsed "content") = false
          ∨ truthy (getField parsed "metaDescription") = false) →
        parseBlogResponse jsonParse response = fallbackBlog)
    ∧ (∀ (jsonParse : String → Option Json) (r : PerplexityResponse),
        extractJson (responseContent r) = none →
        parseAnalysisResponse jsonParse r = fallbackAnalysis)
    ∧ (∀ (jsonParse : String → Option Json) (r : PerplexityResponse) (block : String),
        extractJson (responseContent r) = some block → jsonParse block = none →
        parseAnalysisResponse jsonParse r = fallbackAnalysis)
    ∧ (∀ (jsonParse : String → Option Json) (r : PerplexityResponse)
        (block : String) (parsed : Json),
        extractJson (responseContent r) = some block → jsonParse block = some parsed →
        (truthy (getField parsed "keyInsights") = false
          ∨ isArray (getField parsed "keyInsights") = false) →
        parseAnalysisResponse jsonParse r = fallbackAnalysis) := by
  refine ⟨?_, ?_, ?_, ?_, ?_, ?_⟩
  · intro jsonParse response hex
    simp [parseBlogResponse, hex]
  · intro jsonParse response block hex hp
    simp [parseBlogResponse, hex, hp]
  · intro jsonParse response block parsed hex hp hmiss
    have hcond : (truthy (getField parsed "title") && truthy (getField parsed "content")
        && truthy (getField parsed "metaDescription")) = false := by
      rcases hmiss with h | h | h <;> simp [h]
    simp [parseBlogResponse, hex, hp, hcond]
  · intro jsonParse r hex
    simp [parseAnalysisResponse, hex]
  · intro jsonParse r block hex hp
    simp [parseAnalysisResponse, hex, hp]
  · intro jsonParse r block parsed hex hp hmiss
    have hcond : (truthy (getField parsed "keyInsights")
        && isArray (getField parsed "keyInsights")) = false := by
      rcases hmiss with h | h <;> simp [h]
    simp [parseAnalysisResponse, hex, hp, hcond]

theorem blogFixups_fields (fields : List (String × Json)) (c : String)
    (hcontent : getField (Json.obj fields) "content" = some (Json.str c)) :
    getField (blogFixups (Json.obj fields)) "tags" =
        (if truthy (lookupA fields "tags") then lookupA fields "tags"
         else some (Json.arr []))
    ∧ getField (blogFixups (Json.obj fields)) "seoScore" =
        (if truthy (lookupA fields "seoScore") then lookupA fields "seoScore"
         else some (Json.num 75))
    ∧ getField (blogFixups (Json.obj fields)) "excerpt" =
        (if truthy (lookupA fields "excerpt") then lookupA fields "excerpt"
         else some (Json.str (stripTags (jsSubstring0 c 200) ++ "..."))) := by
  have hc : lookupA fields "content" = some (Json.str c) := hcontent
  simp only [blogFixups, getField_obj, setField_obj]
  by_cases htags : truthy (lookupA fields "tags") = true
  · simp only [htags, if_true]
    by_cases hscore : truthy (lookupA fields "seoScore") = true
    · simp only [getField_obj, hscore, if_true]
      by_cases hexc : truthy (lookupA fields "excerpt") = true
      · simp [getField_obj, hexc, htags, hscore]
      · rw [Bool.not_eq_true] at hexc
        simp [getField_obj, setField_obj, hexc, htags, hscore, hc,
          lookupA_setA_self, lookupA_setA_ne]
    · rw [Bool.not_eq_true] at hscore
      simp only [getField_obj, hscore, Bool.false_eq_true, if_false, setField_obj]
      by_cases hexc : truthy (lookupA fields "excerpt") = true
      · simp [getField_obj, setField_obj, hexc, htags, hscore,
          lookupA_setA_self, lookupA_setA_ne]
      · rw [Bool.not_eq_true] at hexc
        simp [getField_obj, setField_obj, hexc, htags, hscore, hc,
          lookupA_setA_self, lookupA_setA_ne]
  · rw [Bool.not_eq_true] at htags
    simp only [htags, Bool.false_eq_true, if_false, setField_obj, getField_obj]
    by_cases hscore : truthy (lookupA fields "seoScore") = true
    · simp only [lookupA_setA_ne _ _ _ _ (by simp : ("seoScore" : String) ≠ "tags"),
        hscore, if_true]
      by_cases hexc : truthy (lookupA fields "excerpt") = true
      · simp [getField_obj, hexc, htags, hscore, lookupA_setA_self, lookupA_setA_ne]
      · rw [Bool.not_eq_true] at hexc
        simp [getField_obj, setField_obj, hexc, htags, hscore, hc,
          lookupA_setA_self, lookupA_setA_ne]
    · rw [Bool.not_eq_true] at hscore
      simp only [lookupA_setA_ne _ _ _ _ (by simp : ("seoScore" : String) ≠ "tags"),
        hscore, Bool.false_eq_true, if_false, setField_obj, getField_obj]
      by_cases hexc : truthy (lookupA fields "excerpt") = true
      · simp [getField_obj, hexc, htags, hscore, lookupA_setA_self, lookupA_setA_ne]
      · rw [Bool.not_eq_true] at hexc
        simp [getField_obj, setField_obj, hexc, htags, hscore, hc,
          lookupA_setA_self, lookupA_setA_ne]

/-- C9: in a successfully parsed blog response (JSON block found, object
parsed, truthy `title`, `content` a nonempty string, truthy
`metaDescription`), every falsy optional field is defaulted: falsy `tags`
become `[]`, a `seoScore` of `0` becomes `75` — so a model-reported score of
exactly `0` never survives a successful parse — and a missing `excerpt`
becomes the first 200 characters of the content with HTML tags stripped,
followed by `"..."`. -/
theorem parseBlog_fills_falsy_defaults (jsonParse : String → Option Json)
    (response : MessageContent) (block : String) (fields : List (String × Json)) (c : String)
    (hextract : extractJson (contentText response) = some block)
    (hparse : jsonParse block = some (Json.obj fields))
    (htitle : truthy (getField (Json.obj fields) "title") = true)
    (hcontent : getField (Json.obj fields) "content" = some (Json.str c))
    (hcne : c ≠ "")
    (hmeta : truthy (getField (Json.obj fields) "metaDescription") = true) :
    (getField (Json.obj fields) "tags" = none →
       getField (parseBlogResponse jsonParse response) "tags" = some (Json.arr []))
    ∧ (getField (Json.obj fields) "seoScore" = some (Json.num 0) →
       getField (parseBlogResponse jsonParse response) "seoScore" = some (Json.num 75))
    ∧ getField (parseBlogResponse jsonParse response) "seoScore" ≠ some (Json.num 0)
    ∧ (getField (Json.obj fields) "excerpt" = none →
       getField (parseBlogResponse jsonParse response) "excerpt" =
         some (Json.str (stripTags (jsSubstring0 c 200) ++ "..."))) := by
  have hctruthy : truthy (getField (Json.obj fields) "content") = true := by
    rw [hcontent]
    simp [truthy, hcne]
  have hcond : (truthy (getField (Json.obj fields) "title")
      && truthy (getField (Json.obj fields) "content")
      && truthy (getField (Json.obj fields) "metaDescription")) = true := by
    simp [htitle, hctruthy, hmeta]
  have hres : parseBlogResponse jsonParse response = blogFixups (Json.obj fields) := by
    simp [parseBlogResponse, hextract, hparse, hcond]
  obtain ⟨htagsF, hscoreF, hexcF⟩ := blogFixups_fields fields c hcontent
  rw [hres]
  refine ⟨?_, ?_, ?_, ?_⟩
  · intro htn
    rw [getField_obj] at htn
    rw [htagsF, htn]
    simp [truthy]
  · intro hs0
    rw [getField_obj] at hs0
    rw [hscoreF, hs0]
    simp [truthy]
  · intro habs
    rw [hscoreF] at habs
    by_cases hst : truthy (lookupA fields "seoScore") = true
    · rw [if_pos hst] at habs
      rw [habs] at hst
      simp [truthy] at hst
    · rw [Bool.not_eq_true] at hst
      rw [if_neg (by simp [hst])] at habs
      simp at habs
  · intro hen
    rw [getField_obj] at hen
    rw [hexcF, hen]
    simp [truthy]

/-! ## `POST /api/analyze` (`src/app/api/analyze/route.ts`) -/

/-- The slice of a `NextResponse` the route logic determines: HTTP status,
success flag, and the error message when there is one (the response body's
timestamp field is wall-clock formatting and is not modelled). -/
structure RouteResponse where
  status : Nat
  success : Bool
  message : Option String
deriving DecidableEq

/-- `!body.sources || !Array.isArray(body.sources) || body.sources.length === 0`. -/
def sourcesInvalid (body : Json) : Bool :=
  !truthy (getField body "sources") || !isArray (getField body "sources")
    || decide (jsArrayLength (getField body "sources") = 0)

/-- `body.topic.trim().length` (queried only after `typeof === 'string'`). -/
def jsTrimmedLength : Option Json → Nat
  | some (Json.str s) => (jsTrim s).length
  | _ => 0

/-- `!body.topic || typeof body.topic !== 'string' || body.topic.trim().length === 0`. -/
def topicInvalid (body : Json) : Bool :=
  !truthy (getField body "topic") || !isString (getField body "topic")
    || decide (jsTrimmedLength (getField body "topic") = 0)

/-- The `POST` handler of `/api/analyze` on an already-parsed JSON body.  The
client IP is a parameter (the header fallback chain is external input); the
Perplexity pipeline behind the rate limiter is the operation parameter.  A
rate-limit refusal throws a plain `Error`, which `handleAPIError` maps to a
500 `Unexpected error in analyze-api: …` response. -/
def postAnalyze {σ : Type} (rl : RateLimiter) (now : Int) (body : Json)
    (clientIP : String) (analyzeOp : σ → σ × Except String Json) (st : σ) :
    RouteResponse × RateLimiter × σ :=
  if sourcesInvalid body then
    ({ status := 400, success := false,
       message := some "Sources array is required and cannot be empty" }, rl, st)
  else if topicInvalid body then
    ({ status := 400, success := false,
       message := some "Topic is required and cannot be empty" }, rl, st)
  else
    match withRateLimit rl now "perplexity" clientIP analyzeOp st with
    | (rl', st', Except.ok _) =>
        ({ status := 200, success := true, message := none }, rl', st')
    | (rl', st', Except.error e) =>
        ({ status := 500, success := false,
           message := some ("Unexpected error in analyze-api: " ++ e) }, rl', st')

/-- C6: the route validates before any rate-limit bookkeeping: whenever
`sources` is missing, not an array, or empty, or `topic` is missing, not a
string, or trims to the empty string, the response status is 400 and both the
rate limiter and the external world are returned untouched — no slot is
consumed and no external call happens. -/
theorem postAnalyze_validates_before_rate_limiting {σ : Type}
    (rl : RateLimiter) (now : Int) (body : Json) (clientIP : String)
    (analyzeOp : σ → σ × Except String Json) (st : σ)
    (hinvalid :
      (getField body "sources" = none ∨ isArray (getField body "sources") = false
        ∨ jsArrayLength (getField body "sources") = 0)
      ∨ (getField body "topic" = none ∨ isString (getField body "topic") = false
        ∨ jsTrimmedLength (getField body "topic") = 0)) :
    (postAnalyze rl now body clientIP analyzeOp st).1.status = 400
    ∧ (postAnalyze rl now body clientIP analyzeOp st).2.1 = rl
    ∧ (postAnalyze rl now body clientIP analyzeOp st).2.2 = st := by
  rcases hinvalid with hs | ht
  · have hsi : sourcesInvalid body = true := by
      rcases hs with h | h | h
      · simp [sourcesInvalid, h, truthy]
      · simp [sourcesInvalid, h]
      · simp [sourcesInvalid, h]
    simp [postAnalyze, hsi]
  · have hti : topicInvalid body = true := by
      rcases ht with h | h | h
      · simp [topicInvalid, h, truthy]
      · simp [topicInvalid, h]
      · simp [topicInvalid, h]
    by_cases hsi : sourcesInvalid body = true
    · simp [postAnalyze, hsi]
    · rw [Bool.not_eq_true] at hsi
      simp [postAnalyze, hsi, hti]

/-! ## The workflow wizard (C5)

The two-stage pipeline is driven by `ai-editor.tsx`: `handleAnalyzeSources`
(guarded by `canAnalyze`) and `handleGenerateBlog` (guarded by `canGenerate`)
update the workflow store, and `handleWordPressExport` requires a generated
article and the WordPress store's `canPublish`.  The store module itself
(`@/lib/workflow-store`) is not in the source tree; its fields, setters and
initial values (status `'idle'`, step `'sources'`, empty payloads) are the
ones read and written by the components, per the spec's "UI state management
for a multi-step form wizard". -/

inductive WStatus where
  | idle | analyzing | generating | completed | error
deriving DecidableEq

inductive WStep where
  | sources | analysis | generation | completed
deriving DecidableEq

/-- The step keys of the `WorkflowStatus` progress list. -/
def stepKey : WStep → String
  | .sources => "sources"
  | .analysis => "analysis"
  | .generation => "generation"
  | .completed => "completed"

/-- The `steps` array of `WorkflowStatus` (key and label). -/
def workflowSteps : List (String × String) :=
  [("sources", "Source Input"),
   ("analysis", "Perplexity Analysis"),
   ("generation", "Claude Generation"),
   ("completed", "Ready to Publish")]

/-- Modelled from the spec: the workflow store state (`@/lib/workflow-store`
is absent from the tree); the fields are exactly those destructured from
`useWorkflowStore()` in `ai-editor.tsx` and `WorkflowStatus`. -/
structure WorkflowState where
  status : WStatus
  currentStep : WStep
  progress : Nat
  sources : List String
  topic : String
  sourceAnalysis : Option Json
  blogGeneration : Option Json
  analysisError : Option String
  generationError : Option String

/-- Modelled from the spec: the wizard's initial state — nothing supplied,
nothing produced, first step, idle. -/
def initialWorkflowState : WorkflowState :=
  { status := .idle, currentStep := .sources, progress := 0, sources := [],
    topic := "", sourceAnalysis := none, blogGeneration := none,
    analysisError := none, generationError := none }

/-- `canAnalyze = sources.length > 0 && topic.trim().length > 0 && status === 'idle'`. -/
def canAnalyze (s : WorkflowState) : Bool :=
  decide (0 < s.sources.length) && decide (0 < (jsTrim s.topic).length)
    && decide (s.status = WStatus.idle)

/-- `canGenerate = sourceAnalysis && !analysisError && status === 'idle'`. -/
def canGenerate (s : WorkflowState) : Bool :=
  s.sourceAnalysis.isSome && decide (s.analysisError = none)
    && decide (s.status = WStatus.idle)

/-- The store transitions performed by `ai-editor.tsx`.  Each fetch is split
into its synchronous start (the `setStatus`/`setCurrentStep`/`setError(null)`
calls before the request) and its asynchronous completion (the success or
catch branch); the in-flight status blocks every other transition, matching
the disabled buttons.  `setInputs` is the input-editing path from the other
components. -/
inductive WStepRel : WorkflowState → WorkflowState → Prop where
  | analyzeStart (s : WorkflowState) (h : canAnalyze s = true) :
      WStepRel s { s with status := .analyzing, currentStep := .analysis, analysisError := none }
  | analyzeOk (s : WorkflowState) (a : Json) (h : s.status = .analyzing) :
      WStepRel s { s with sourceAnalysis := some a, currentStep := .generation, progress := 50, status := .idle }
  | analyzeErr (s : WorkflowState) (e : String) (h : s.status = .analyzing) :
      WStepRel s { s with analysisError := some e, status := .error }
  | generateStart (s : WorkflowState) (h : canGenerate s = true) :
      WStepRel s { s with status := .generating, generationError := none }
  | generateOk (s : WorkflowState) (b : Json) (h : s.status = .generating) :
      WStepRel s { s with blogGeneration := some b, currentStep := .completed, progress := 100, status := .completed }
  | generateErr (s : WorkflowState) (e : String) (h : s.status = .generating) :
      WStepRel s { s with generationError := some e, status := .error }
  | setInputs (s : WorkflowState) (srcs : List String) (topic : String) :
      WStepRel s { s with sources := srcs, topic := topic }

/-- States the wizard can actually be in. -/
inductive WReachable : WorkflowState → Prop where
  | init : WReachable initialWorkflowState
  | step {s t : WorkflowState} : WReachable s → WStepRel s t → WReachable t

/-- The WordPress store fields consulted by `canPublish` (the site-info
record is reduced to its `connected` flag, the only field read here). -/
structure WordPressSiteInfo where
  connected : Bool
deriving DecidableEq

inductive PublishStatus where
  | idle | testing | publishing | success | error
deriving DecidableEq

structure WordPressStoreState where
  defaultSite : Option WordPressSiteInfo
  customSite : Option WordPressSiteInfo
  useCustomSite : Bool
  publishStatus : PublishStatus
deriving DecidableEq

/-- `getCurrentSite`. -/
def getCurrentSite (w : WordPressStoreState) : Option WordPressSiteInfo :=
  if w.useCustomSite then w.customSite else w.defaultSite

/-- `canPublish = currentSite?.connected === true && publishStatus === 'idle'`. -/
def canPublish (w : WordPressStoreState) : Bool :=
  (match getCurrentSite w with
   | some site => site.connected
   | none => false) && decide (w.publishStatus = PublishStatus.idle)

/-- `handleWordPressExport` proceeds only with a generated article and
`canPublish()`. -/
def exportOffered (s : WorkflowState) (w : WordPressStoreState) : Bool :=
  s.blogGeneration.isSome && canPublish w

/-- The inductive invariant of the wizard. -/
def WorkflowInv (s : WorkflowState) : Prop :=
  (s.blogGeneration.isSome = true →
      s.status = WStatus.completed ∧ s.currentStep = WStep.completed
        ∧ s.sourceAnalysis.isSome = true ∧ s.analysisError = none
        ∧ s.generationError = none)
  ∧ (s.currentStep = WStep.completed → s.blogGeneration.isSome = true)
  ∧ (s.status = WStatus.generating →
      s.sourceAnalysis.isSome = true ∧ s.analysisError = none ∧ s.generationError = none)

theorem wstep_preserves_inv {s t : WorkflowState}
    (hinv : WorkflowInv s) (hst : WStepRel s t) : WorkflowInv t := by
  obtain ⟨h1, h2, h3⟩ := hinv
  cases hst with
  | analyzeStart h =>
    have hidle : s.status = WStatus.idle := by
      have := (Bool.and_eq_true _ _).mp h
      exact of_decide_eq_true this.2
    have hblog : s.blogGeneration.isSome = false := by
      cases hb : s.blogGeneration.isSome
      · rfl
      · have := (h1 hb).1
        rw [hidle] at this
        cases this
    refine ⟨?_, ?_, ?_⟩
    · intro hb
      simp only at hb
      rw [hblog] at hb
      cases hb
    · intro hc
      simp only at hc
      cases hc
    · intro hg
      simp only at hg
      cases hg
  | analyzeOk a h =>
    have hblog : s.blogGeneration.isSome = false := by
      cases hb : s.blogGeneration.isSome
      · rfl
      · have := (h1 hb).1
        rw [h] at this
        cases this
    refine ⟨?_, ?_, ?_⟩
    · intro hb
      simp only at hb
      rw [hblog] at hb
      cases hb
    · intro hc
      simp only at hc
      cases hc
    · intro hg
      simp only at hg
      cases hg
  | analyzeErr e h =>
    have hblog : s.blogGeneration.isSome = false := by
      cases hb : s.blogGeneration.isSome
      · rfl
      · have := (h1 hb).1
        rw [h] at this
        cases this
    refine ⟨?_, ?_, ?_⟩
    · intro hb
      simp only at hb
      rw [hblog] at hb
      cases hb
    · intro hc
      simp only at hc
      have := h2 hc
      rw [hblog] at this
      cases this
    · intro hg
      simp only at hg
      cases hg
  | generateStart h =>
    have hparts := (Bool.and_eq_true _ _).mp h
    have hparts' := (Bool.and_eq_true _ _).mp hparts.1
    have hsa : s.sourceAnalysis.isSome = true := hparts'.1
    have hae : s.analysisError = none := of_decide_eq_true hparts'.2
    have hidle : s.status = WStatus.idle := of_decide_eq_true hparts.2
    have hblog : s.blogGeneration.isSome = false := by
      cases hb : s.blogGeneration.isSome
      · rfl
      · have := (h1 hb).1
        rw [hidle] at this
        cases this
    refine ⟨?_, ?_, ?_⟩
    · intro hb
      simp only at hb
      rw [hblog] at hb
      cases hb
    · intro hc
      simp only at hc
      have := h2 hc
      rw [hblog] at this
      cases this
    · intro _
      exact ⟨hsa, hae, rfl⟩
  | generateOk b h =>
    have hgen := h3 h
    refine ⟨?_, ?_, ?_⟩
    · intro _
      exact ⟨rfl, rfl, hgen.1, hgen.2.1, hgen.2.2⟩
    · intro _
      simp
    · intro hg
      simp only at hg
      cases hg
  | generateErr e h =>
    have hblog : s.blogGeneration.isSome = false := by
      cases hb : s.blogGeneration.isSome
      · rfl
      · have := (h1 hb).1
        rw [h] at this
        cases this
    refine ⟨?_, ?_, ?_⟩
    · intro hb
      simp only at hb
      rw [hblog] at hb
      cases hb
    · intro hc
      simp only at hc
      have := h2 hc
      rw [hblog] at this
      cases this
    · intro hg
      simp only at hg
      cases hg
  | setInputs srcs topic =>
    exact ⟨h1, h2, h3⟩

theorem reachable_inv {s : WorkflowState} (h : WReachable s) : WorkflowInv s := by
  induction h with
  | init =>
    refine ⟨?_, ?_, ?_⟩
    · intro hb; cases hb
    · intro hc; cases hc
    · intro hg; cases hg
  | step _ hst ih => exact wstep_preserves_inv ih hst

theorem stepKey_eq_completed (st : WStep) (h : stepKey st = "completed") :
    st = WStep.completed := by
  cases st
  · exact absurd h (by simp [stepKey])
  · exact absurd h (by simp [stepKey])
  · exact absurd h (by simp [stepKey])
  · rfl

/-- C5: in every reachable wizard state, the `"Ready to Publish"` step (key
`"completed"`) is reached, or export is offered (`handleWordPressExport`'s
guard passes), only when both pipeline stages completed without error: the
analysis result and the generated article are present, both error slots are
empty, and the workflow is in the terminal `completed` status and step. -/
theorem readyToPublish_requires_both_stages (s : WorkflowState)
    (w : WordPressStoreState) (hreach : WReachable s)
    (hoffer : stepKey s.currentStep = "completed" ∨ exportOffered s w = true) :
    s.sourceAnalysis.isSome = true ∧ s.analysisError = none
      ∧ s.blogGeneration.isSome = true ∧ s.generationError = none
      ∧ s.status = WStatus.completed ∧ s.currentStep = WStep.completed := by
  obtain ⟨h1, h2, _⟩ := reachable_inv hreach
  have hblog : s.blogGeneration.isSome = true := by
    rcases hoffer with hstep | hexp
    · exact h2 (stepKey_eq_completed _ hstep)
    · exact ((Bool.and_eq_true _ _).mp hexp).1
  obtain ⟨hstatus, hstep, hsa, hae, hge⟩ := h1 hblog
  exact ⟨hsa, hae, hblog, hge, hstatus, hstep⟩

/-! ## Concrete witnesses -/

/-- A limiter with one partially-expired window under the `perplexity` key. -/
def sampleLimiter : RateLimiter :=
  { requests := [("perplexity:c", [⟨0, 1⟩, ⟨50000, 1⟩])], configs := defaultConfigs }

/-- A limiter whose `perplexity:c` window is at capacity. -/
def fullLimiter : RateLimiter :=
  { requests := [("perplexity:c", List.replicate 20 ⟨0, 1⟩)], configs := defaultConfigs }

theorem checkLimit_prunes_then_decides_witness :
    (checkLimit sampleLimiter 60000 "perplexity" "c").1 = true
    ∧ windowOf (checkLimit sampleLimiter 60000 "perplexity" "c").2 "perplexity" "c"
        = [⟨50000, 1⟩, ⟨60000, 1⟩] := by
  have h := checkLimit_prunes_then_decides sampleLimiter 60000 "perplexity" "c"
  constructor
  · rw [h.2.1]
    decide
  · rw [h.2.2.1]
    decide

theorem rateWindow_capacity_witness :
    countInWindow
        (runChecks initialRateLimiter [((0 : Int), "perplexity", "c"), ((5 : Int), "perplexity", "c")])
        5 "perplexity" "c"
      ≤ (lookupConfig initialRateLimiter.configs "perplexity").maxRequests :=
  rateWindow_capacity [((0 : Int), "perplexity", "c"), ((5 : Int), "perplexity", "c")]
    (by decide) (by decide) "perplexity" "c" (by decide) 5 (by decide)

theorem getResetTime_spec_witness :
    getResetTime sampleLimiter "perplexity" "c" = some 60000 := by
  have h := ((getResetTime_spec sampleLimiter "perplexity" "c").2.1
    ⟨0, 1⟩ [⟨50000, 1⟩] (by decide)).1
  rw [h]
  decide

theorem cleanup_spec_witness :
    lookupA (cleanup sampleLimiter 70000).requests "perplexity:c" = some [⟨50000, 1⟩]
    ∧ (cleanup sampleLimiter 70000).configs = sampleLimiter.configs := by
  have h := cleanup_spec sampleLimiter 70000 (by decide)
  constructor
  · have h3 := h.2.2.1 "perplexity:c" [⟨0, 1⟩, ⟨50000, 1⟩] (by decide)
    rw [h3]
    decide
  · exact h.1

theorem withRateLimit_spec_witness :
    (checkLimit fullLimiter 1000 "perplexity" "c").1 = false
    ∧ withRateLimit fullLimiter 1000 "perplexity" "c"
        (fun (u : Unit) => (u, Except.ok (0 : Nat))) ()
        = ((checkLimit fullLimiter 1000 "perplexity" "c").2, (),
           Except.error (rateLimitMessage "perplexity" 59)) := by
  refine ⟨by decide, ?_⟩
  have h := (withRateLimit_spec fullLimiter 1000 "perplexity" "c"
    (fun (u : Unit) => (u, Except.ok (0 : Nat))) ()).1 (by decide)
  rw [h.1]
  rfl

theorem withRateLimit_records_failed_operation_witness :
    (checkLimit initialRateLimiter 0 "claude" "c").1 = true
    ∧ withRateLimit initialRateLimiter 0 "claude" "c"
        (fun (u : Unit) => (u, (Except.error "boom" : Except String Nat))) ()
        = ((checkLimit initialRateLimiter 0 "claude" "c").2, (), Except.error "boom")
    ∧ (⟨0, 1⟩ : RequestRecord) ∈
        windowOf (checkLimit initialRateLimiter 0 "claude" "c").2 "claude" "c" := by
  have h := withRateLimit_records_failed_operation initialRateLimiter 0 "claude" "c"
    (fun (u : Unit) => (u, (Except.error "boom" : Except String Nat))) () "boom"
    (by decide) rfl
  exact ⟨by decide, h.1, h.2.2.1⟩

theorem parsers_total_with_fallback_witness :
    parseBlogResponse (fun _ => none)
        (MessageContent.blocks [ContentBlock.text "no braces here"]) = fallbackBlog
    ∧ parseAnalysisResponse (fun _ => none)
        ⟨[⟨⟨"also no braces"⟩⟩]⟩ = fallbackAnalysis := by
  constructor
  · exact parsers_total_with_fallback.1 (fun _ => none)
      (MessageContent.blocks [ContentBlock.text "no braces here"]) (by decide)
  · exact parsers_total_with_fallback.2.2.2.1 (fun _ => none)
      ⟨[⟨⟨"also no braces"⟩⟩]⟩ (by decide)

/-- A parsed blog object with truthy required fields, no `tags`, `seoScore`
zero, and no `excerpt`. -/
def sampleBlogFields : List (String × Json) :=
  [("title", .str "T"), ("content", .str "<p>Hello</p>"),
   ("metaDescription", .str "M"), ("seoScore", .num 0)]

theorem parseBlog_fills_falsy_defaults_witness :
    getField (parseBlogResponse (fun _ => some (Json.obj sampleBlogFields))
        (MessageContent.blocks [ContentBlock.text "{x}"])) "tags" = some (Json.arr [])
    ∧ getField (parseBlogResponse (fun _ => some (Json.obj sampleBlogFields))
        (MessageContent.blocks [ContentBlock.text "{x}"])) "seoScore" = some (Json.num 75)
    ∧ getField (parseBlogResponse (fun _ => some (Json.obj sampleBlogFields))
        (MessageContent.blocks [ContentBlock.text "{x}"])) "excerpt"
        = some (Json.str (stripTags (jsSubstring0 "<p>Hello</p>" 200) ++ "...")) := by
  have h := parseBlog_fills_falsy_defaults (fun _ => some (Json.obj sampleBlogFields))
    (MessageContent.blocks [ContentBlock.text "{x}"]) "{x}" sampleBlogFields "<p>Hello</p>"
    (by decide) rfl (by decide) rfl (by decide) (by decide)
  exact ⟨h.1 rfl, h.2.1 rfl, h.2.2.2 rfl⟩

theorem postAnalyze_validates_witness :
    (postAnalyze initialRateLimiter 0 (Json.obj [("sources", Json.arr [])]) "unknown"
        (fun (u : Unit) => (u, Except.ok Json.null)) ()).1.status = 400
    ∧ (postAnalyze initialRateLimiter 0 (Json.obj [("sources", Json.arr [])]) "unknown"
        (fun (u : Unit) => (u, Except.ok Json.null)) ()).2.1 = initialRateLimiter := by
  have h := postAnalyze_validates_before_rate_limiting initialRateLimiter 0
    (Json.obj [("sources", Json.arr [])]) "unknown"
    (fun (u : Unit) => (u, Except.ok Json.null)) ()
    (Or.inl (Or.inr (Or.inr (by decide))))
  exact ⟨h.1, h.2.1⟩

/-- The wizard state after the user has supplied input. -/
def wfInputs : WorkflowState :=
  { initialWorkflowState with sources := ["s"], topic := "t" }

/-- During analysis. -/
def wfAnalyzing : WorkflowState :=
  { wfInputs with status := .analyzing, currentStep := .analysis, analysisError := none }

/-- After a successful analysis. -/
def wfAnalyzed : WorkflowState :=
  { wfAnalyzing with sourceAnalysis := some (Json.str "analysis"), currentStep := .generation, progress := 50, status := .idle }

/-- During generation. -/
def wfGenerating : WorkflowState :=
  { wfAnalyzed with status := .generating, generationError := none }

/-- After a successful generation: the terminal state. -/
def wfDone : WorkflowState :=
  { wfGenerating with blogGeneration := some (Json.str "article"), currentStep := .completed, progress := 100, status := .completed }

/-- A WordPress store with a connected default site, idle. -/
def wpReady : WordPressStoreState :=
  { defaultSite := some ⟨true⟩, customSite := none, useCustomSite := false, publishStatus := .idle }

theorem wfDone_reachable : WReachable wfDone :=
  WReachable.step
    (WReachable.step
      (WReachable.step
        (WReachable.step
          (WReachable.step WReachable.init
            (WStepRel.setInputs initialWorkflowState ["s"] "t"))
          (WStepRel.analyzeStart wfInputs (by decide)))
        (WStepRel.analyzeOk wfAnalyzing (Json.str "analysis") rfl))
      (WStepRel.generateStart wfAnalyzed (by decide)))
    (WStepRel.generateOk wfGenerating (Json.str "article") rfl)

theorem readyToPublish_requires_both_stages_witness :
    wfDone.sourceAnalysis.isSome = true ∧ wfDone.analysisError = none
      ∧ wfDone.blogGeneration.isSome = true ∧ wfDone.generationError = none
      ∧ wfDone.status = WStatus.completed ∧ wfDone.currentStep = WStep.completed :=
  readyToPublish_requires_both_stages wfDone wpReady wfDone_reachable (Or.inl (by decide))

end WordPosty
